import Mathlib

/-!
Shallow embedding of `src/Observable.ts` (fabric.js event registry).

The `Observable` class keeps a listener table
`__eventListeners : Record<eventName, TEventCallback[]>` and exposes
`on`, `once`, `off`, `fire` plus the private `_removeEventListener`.

Modelling choices, each tied to a line of the source:
* Event names are `String`; the `Record` is an association list with
  unique keys, in JS insertion order (`setName` updates in place,
  appends new keys at the end, exactly like property assignment).
* Listeners are identified by `Nat` ids; JS removal compares function
  references (`indexOf`, line 118), which is identity of the id here.
* A listener's behaviour is given by an environment
  `env : Nat → HandlerSpec`.  A `base` handler performs one of the
  registry-mutating effects a callback can have (nothing, `on`, `off`)
  or throws; the wrapper closure built by `once` (lines 92-95:
  `handler(...args); disposer()`) is `onceWrap innerId inner name` —
  it invokes the inner handler and, only when that returns normally,
  runs the disposer `() => this.off(name, wrapper)`.
* Payloads are JS-like values with truthiness, because `fire` passes
  `options || {}` (line 178), which replaces any falsy payload by `{}`.
* `fire` invokes each listener with `.call(this, …)`, so the recorded
  invocation context is `Ctx.owner`; the `once` wrapper calls the
  inner handler as a plain function, recorded as `Ctx.undefCtx`.
* Each invocation is recorded in a log `List Invocation`; a thrown error is a
  `Bool` flag that aborts the remaining iteration and propagates
  (lines 177-179 have no try/catch).
-/

/-- JS-like runtime values used as event payloads. -/
inductive JSValue where
  | undef
  | nullV
  | boolV (b : Bool)
  | numV (n : Int)
  | strV (s : String)
  | emptyObj
  | objV (id : Nat)
deriving DecidableEq, Repr

/-- JS truthiness: `undefined`, `null`, `false`, `0`, `""` are falsy;
objects (including `{}`) are truthy. -/
def truthy : JSValue → Bool
  | .undef => false
  | .nullV => false
  | .boolV b => b
  | .numV n => n != 0
  | .strV s => s != ""
  | .emptyObj => true
  | .objV _ => true

/-- Invocation context (`this`) a callback is invoked with:
`fire` uses `.call(this, …)` so listeners get the registry owner;
the `once` wrapper calls `handler(...args)` as a plain (strict-mode)
call, so the inner handler gets `undefined`. -/
inductive Ctx where
  | owner
  | undefCtx
deriving DecidableEq, Repr

/-- One effect a callback body can have on the registry:
do nothing, call `on(name, h)`, call `off(name, h)`, or throw. -/
inductive HEffect where
  | noEff
  | sub (name : String) (h : Nat)
  | unsub (name : String) (h : Nat)
  | throwErr
deriving DecidableEq, Repr

/-- Behaviour of a stored callback: either a plain callback with one
effect, or the wrapper closure created by `once` around the handler
with id `innerId` and behaviour `inner` for event `name`. -/
inductive HandlerSpec where
  | base (eff : HEffect)
  | onceWrap (innerId : Nat) (inner : HandlerSpec) (name : String)
deriving DecidableEq, Repr

/-- The `Observable` instance: just its `__eventListeners` record. -/
structure Observable where
  __eventListeners : List (String × List Nat)
deriving DecidableEq, Repr

/-- Record lookup `table[name]`: first (unique) matching key. -/
def lookupName : List (String × List Nat) → String → Option (List Nat)
  | [], _ => Option.none
  | (k, v) :: rest, n => if k = n then some v else lookupName rest n

/-- Record update `table[name] = v`: replaces the value of an existing
key in place, or appends a new key at the end (JS insertion order). -/
def setName : List (String × List Nat) → String → List Nat → List (String × List Nat)
  | [], n, v => [(n, v)]
  | (k, w) :: rest, n, v =>
      if k = n then (k, v) :: rest else (k, w) :: setName rest n v

/-- `array.splice(array.indexOf(h), 1)` for `indexOf ≥ 0`: drop the
first occurrence of `h`. -/
def removeFirst : List Nat → Nat → List Nat
  | [], _ => []
  | x :: xs, h => if x = h then xs else x :: removeFirst xs h

/-- One invocation of a stored callback: which callback, with which
argument, and with which `this`. -/
structure Invocation where
  id : Nat
  arg : JSValue
  ctx : Ctx
deriving DecidableEq, Repr

namespace Obs

/-- `on(eventName, handler)` (lines 48-54): create the array if the
key is absent, then push the handler.  Duplicates are allowed. -/
def «on» (st : Observable) (name : String) (h : Nat) : Observable :=
  let cur := (lookupName st.__eventListeners name).getD []
  ⟨setName st.__eventListeners name (cur ++ [h])⟩

/-- `on(handlers)` bulk form (lines 42-47): `for (const eventName in
arg0) this.on(eventName, arg0[eventName])`.  The object literal is
modelled as a list of (distinct) key/handler pairs in insertion
order. -/
def onBulk (st : Observable) (m : List (String × Nat)) : Observable :=
  m.foldl (fun s kv => Obs.on s kv.1 kv.2) st

/-- `_removeEventListener(eventName, handler?)` (lines 108-123):
return if the key is absent; with a handler, splice out the first
occurrence if `indexOf > -1`; without, reset the array to `[]`. -/
def _removeEventListener (st : Observable) (name : String) (handler : Option Nat) :
    Observable :=
  match lookupName st.__eventListeners name with
  | Option.none => st
  | some l =>
    match handler with
    | some h =>
        if h ∈ l then ⟨setName st.__eventListeners name (removeFirst l h)⟩ else st
    | Option.none => ⟨setName st.__eventListeners name []⟩

/-- `off(eventName, handler)` (line 160). -/
def off (st : Observable) (name : String) (h : Nat) : Observable :=
  Obs._removeEventListener st name (some h)

/-- `off(handlers)` bulk form (lines 155-158). -/
def offBulk (st : Observable) (m : List (String × Nat)) : Observable :=
  m.foldl (fun s kv => Obs._removeEventListener s kv.1 (some kv.2)) st

/-- `off()` with no arguments (lines 149-153): for each currently
known key, `_removeEventListener(eventName)`.  The key list is read
from the record before the loop mutates only values, so it is the
original key list. -/
def offAll (st : Observable) : Observable :=
  (st.__eventListeners.map Prod.fst).foldl
    (fun s n => Obs._removeEventListener s n Option.none) st

/-- `once(eventName, handler)` (lines 91-96) registers the fresh
wrapper closure; `wrapperId` is the id of that closure, whose
behaviour must be `HandlerSpec.onceWrap innerId inner eventName` in
the environment (stated as a hypothesis in the theorems). -/
def once (st : Observable) (name : String) (wrapperId : Nat) : Observable :=
  Obs.on st name wrapperId

/-- Run one stored callback (its whole body).  Returns the new state,
the invocations performed (the callback itself first, then any nested
handler invocation), and whether an error escaped.  For `onceWrap`
(the arrow function at lines 92-95): invoke the inner handler with
`this = undefined`; if it throws, the `disposer()` call is never
reached; otherwise run the disposer `this.off(name, wrapper)`. -/
def invokeSpec (selfId : Nat) (spec : HandlerSpec) (arg : JSValue) (ctx : Ctx)
    (st : Observable) : Observable × List Invocation × Bool :=
  match spec with
  | .base eff =>
    match eff with
    | .noEff => (st, [⟨selfId, arg, ctx⟩], false)
    | .sub n h => (Obs.on st n h, [⟨selfId, arg, ctx⟩], false)
    | .unsub n h => (Obs.off st n h, [⟨selfId, arg, ctx⟩], false)
    | .throwErr => (st, [⟨selfId, arg, ctx⟩], true)
  | .onceWrap innerId inner name =>
    let r := invokeSpec innerId inner arg Ctx.undefCtx st
    if r.2.2 then (r.1, ⟨selfId, arg, ctx⟩ :: r.2.1, true)
    else (Obs.off r.1 name selfId, ⟨selfId, arg, ctx⟩ :: r.2.1, false)

/-- The `for` loop of `fire` (lines 177-179) over the snapshot:
invoke each listener with `this = owner`; a thrown error aborts the
rest of the loop and propagates. -/
def fireList (env : Nat → HandlerSpec) (ids : List Nat) (arg : JSValue)
    (st : Observable) : Observable × List Invocation × Bool :=
  match ids with
  | [] => (st, [], false)
  | h :: t =>
    let r := Obs.invokeSpec h (env h) arg Ctx.owner st
    if r.2.2 then (r.1, r.2.1, true)
    else
      let r2 := fireList env t arg r.1
      (r2.1, r.2.1 ++ r2.2.1, r2.2.2)

/-- `fire(eventName, options?)` (lines 169-181):
`this.__eventListeners[eventName]?.concat()` takes a snapshot (or
skips everything when the key is absent), then the loop passes
`options || {}` to each listener.  An omitted `options` is
`JSValue.undef`. -/
def fire (env : Nat → HandlerSpec) (st : Observable) (name : String)
    (options : JSValue) : Observable × List Invocation × Bool :=
  match lookupName st.__eventListeners name with
  | Option.none => (st, [], false)
  | some snapshot =>
      Obs.fireList env snapshot (if truthy options then options else JSValue.emptyObj) st

/-- A sequence of independent top-level `fire` calls; an error thrown
by one call propagates to that caller but the next call still runs. -/
def fireSeq (env : Nat → HandlerSpec) (st : Observable) :
    List (String × JSValue) → Observable × List Invocation
  | [] => (st, [])
  | c :: rest =>
    let r := Obs.fire env st c.1 c.2
    let r2 := fireSeq env r.1 rest
    (r2.1, r.2.1 ++ r2.2)

end Obs

/-- How many times the callback with id `i` was invoked in a log. -/
def countInv (log : List Invocation) (i : Nat) : Nat :=
  (log.filter (fun e => e.id = i)).length

/-! ### Basic lemmas about the record operations -/

theorem lookupName_set_self (t : List (String × List Nat)) (n : String) (v : List Nat) :
    lookupName (setName t n v) n = some v := by
  induction t with
  | nil => simp [setName, lookupName]
  | cons kv rest ih =>
    obtain ⟨k, w⟩ := kv
    by_cases hk : k = n
    · simp [setName, lookupName, hk]
    · simp [setName, lookupName, hk, ih]

theorem lookupName_set_ne (t : List (String × List Nat)) (n m : String) (v : List Nat)
    (h : m ≠ n) : lookupName (setName t n v) m = lookupName t m := by
  have h' : n ≠ m := h.symm
  induction t with
  | nil => simp [setName, lookupName, h']
  | cons kv rest ih =>
    obtain ⟨k, w⟩ := kv
    by_cases hk : k = n
    · subst hk
      simp [setName, lookupName, h']
    · simp [setName, lookupName, hk, ih]

theorem removeFirst_not_mem (l : List Nat) (h : Nat) (hm : h ∉ l) :
    removeFirst l h = l := by
  induction l with
  | nil => rfl
  | cons x xs ih =>
    have hx : x ≠ h := fun hc => hm (hc ▸ List.mem_cons_self x xs)
    have hxs : h ∉ xs := fun hc => hm (List.mem_cons_of_mem x hc)
    simp [removeFirst, hx, ih hxs]

theorem removeFirst_append (l1 l2 : List Nat) (h : Nat) (hm : h ∉ l1) :
    removeFirst (l1 ++ h :: l2) h = l1 ++ l2 := by
  induction l1 with
  | nil => simp [removeFirst]
  | cons x xs ih =>
    have hx : x ≠ h := fun hc => hm (hc ▸ List.mem_cons_self x xs)
    have hxs : h ∉ xs := fun hc => hm (List.mem_cons_of_mem x hc)
    simp [removeFirst, hx, ih hxs]

/-! ### Claim theorems -/

/-- Claim C9: all operations are total no-ops on missing data:
`off(N, L)` when `N` has no entry, or when `L` is not stored under
`N`, leaves the table unchanged; `fire(N, P)` when `N` has no
sequence, or an empty one, returns immediately with no invocation,
no thrown error, and an unchanged table. -/
theorem C9_total_noop (st : Observable) (N : String) (L : Nat) (P : JSValue)
    (env : Nat → HandlerSpec) :
    (lookupName st.__eventListeners N = Option.none → Obs.off st N L = st) ∧
    (∀ l, lookupName st.__eventListeners N = some l → L ∉ l → Obs.off st N L = st) ∧
    (lookupName st.__eventListeners N = Option.none →
      Obs.fire env st N P = (st, [], false)) ∧
    (lookupName st.__eventListeners N = some [] →
      Obs.fire env st N P = (st, [], false)) := by
  refine ⟨fun h => ?_, fun l hl hm => ?_, fun h => ?_, fun h => ?_⟩
  · simp [Obs.off, Obs._removeEventListener, h]
  · simp [Obs.off, Obs._removeEventListener, hl, hm]
  · simp [Obs.fire, h]
  · simp [Obs.fire, h, Obs.fireList]

/-- Witness for C9 at concrete inputs: an absent name for `off` and
`fire`, a present name without the listener for `off`, and a present
name with an empty sequence for `fire`. -/
theorem C9_total_noop_witness :
    Obs.off ⟨[]⟩ "e" 0 = ⟨[]⟩ ∧
    Obs.off ⟨[("e", [1])]⟩ "e" 0 = ⟨[("e", [1])]⟩ ∧
    Obs.fire (fun _ => .base .noEff) ⟨[]⟩ "e" JSValue.undef = (⟨[]⟩, [], false) ∧
    Obs.fire (fun _ => .base .noEff) ⟨[("e", [])]⟩ "e" JSValue.undef =
      (⟨[("e", [])]⟩, [], false) := by
  refine ⟨(C9_total_noop ⟨[]⟩ "e" 0 JSValue.undef (fun _ => .base .noEff)).1 rfl,
    (C9_total_noop ⟨[("e", [1])]⟩ "e" 0 JSValue.undef (fun _ => .base .noEff)).2.1
      [1] (by decide) (by decide),
    (C9_total_noop ⟨[]⟩ "e" 0 JSValue.undef (fun _ => .base .noEff)).2.2.1 rfl,
    (C9_total_noop ⟨[("e", [])]⟩ "e" 0 JSValue.undef (fun _ => .base .noEff)).2.2.2
      (by decide)⟩

/-- Claim C7: bulk subscribe equivalence.  `on {a: f, b: g}` (with the
two distinct keys of the object literal, in insertion order) produces
exactly the same table as `on(a, f); on(b, g)`, and hence firing `a`
then `b` from either gives identical results. -/
theorem C7_bulk_equiv (st : Observable) (a b : String) (f g : Nat)
    (env : Nat → HandlerSpec) (Pa Pb : JSValue) (hab : a ≠ b) :
    Obs.onBulk st [(a, f), (b, g)] = Obs.on (Obs.on st a f) b g ∧
    Obs.fireSeq env (Obs.onBulk st [(a, f), (b, g)]) [(a, Pa), (b, Pb)] =
      Obs.fireSeq env (Obs.on (Obs.on st a f) b g) [(a, Pa), (b, Pb)] := by
  exact ⟨rfl, rfl⟩

/-- Witness for C7 at concrete inputs. -/
theorem C7_bulk_equiv_witness :
    Obs.onBulk ⟨[]⟩ [("a", 0), ("b", 1)] = Obs.on (Obs.on ⟨[]⟩ "a" 0) "b" 1 ∧
    Obs.fireSeq (fun _ => .base .noEff) (Obs.onBulk ⟨[]⟩ [("a", 0), ("b", 1)])
        [("a", JSValue.undef), ("b", JSValue.undef)] =
      Obs.fireSeq (fun _ => .base .noEff) (Obs.on (Obs.on ⟨[]⟩ "a" 0) "b" 1)
        [("a", JSValue.undef), ("b", JSValue.undef)] :=
  C7_bulk_equiv ⟨[]⟩ "a" "b" 0 1 (fun _ => .base .noEff) JSValue.undef JSValue.undef
    (by decide)

/-- Claim C6: registering the same listener twice under the same name
stores two copies and `fire` invokes it twice (no deduplication, no
error, for any non-throwing listener behaviour); and removal removes
exactly the first stored occurrence, scanning from the front. -/
theorem C6_duplicate_registration (N : String) (L : Nat) (eff : HEffect) (P : JSValue)
    (env : Nat → HandlerSpec) (henv : env L = .base eff) (heff : eff ≠ .throwErr) :
    (Obs.on (Obs.on ⟨[]⟩ N L) N L).__eventListeners = [(N, [L, L])] ∧
    countInv (Obs.fire env (Obs.on (Obs.on ⟨[]⟩ N L) N L) N P).2.1 L = 2 ∧
    (∀ st l1 l2, L ∉ l1 →
      lookupName st.__eventListeners N = some (l1 ++ L :: l2) →
      lookupName (Obs.off st N L).__eventListeners N = some (l1 ++ l2)) := by
  have hon : Obs.on (Obs.on ⟨[]⟩ N L) N L = ⟨[(N, [L, L])]⟩ := by
    simp [Obs.on, lookupName, setName]
  refine ⟨by rw [hon], ?_, fun st l1 l2 hm hl => ?_⟩
  · rw [hon]
    rcases eff with _ | ⟨n, h⟩ | ⟨n, h⟩ | _
    · simp [Obs.fire, lookupName, Obs.fireList, Obs.invokeSpec, henv, countInv]
    · simp [Obs.fire, lookupName, Obs.fireList, Obs.invokeSpec, henv, countInv]
    · simp [Obs.fire, lookupName, Obs.fireList, Obs.invokeSpec, henv, countInv]
    · exact absurd rfl heff
  · have hmem : L ∈ l1 ++ L :: l2 := by simp
    simp [Obs.off, Obs._removeEventListener, hl, hmem, removeFirst_append l1 l2 L hm,
      lookupName_set_self]

/-- Witness for C6 at concrete inputs. -/
theorem C6_duplicate_registration_witness :
    (Obs.on (Obs.on ⟨[]⟩ "e" 0) "e" 0).__eventListeners = [("e", [0, 0])] ∧
    countInv (Obs.fire (fun _ => .base .noEff) (Obs.on (Obs.on ⟨[]⟩ "e" 0) "e" 0) "e"
      JSValue.undef).2.1 0 = 2 ∧
    lookupName (Obs.off ⟨[("e", [1, 0, 0])]⟩ "e" 0).__eventListeners "e" =
      some ([1] ++ [0]) := by
  have h := C6_duplicate_registration "e" 0 .noEff JSValue.undef (fun _ => .base .noEff)
    rfl (by decide)
  exact ⟨h.1, h.2.1, h.2.2 ⟨[("e", [1, 0, 0])]⟩ [1] [0] (by decide) (by decide)⟩

/-- Claim C1 counterexample: `fire` passes `options || {}`, so a
supplied but falsy payload (here `false`) is replaced by `{}` — the
listener does not receive the supplied payload `P`. -/
theorem C1_counterexample :
    (Obs.fire (fun _ => .base .noEff) (Obs.on ⟨[]⟩ "e" 0) "e" (JSValue.boolV false)).2.1 =
      [⟨0, JSValue.emptyObj, Ctx.owner⟩] ∧
    JSValue.emptyObj ≠ JSValue.boolV false := by decide

/-- Claim C1 (amended): after `on(N, L)` on a fresh registry,
`fire(N, P)` invokes L exactly once — whatever L's behaviour — with
the owner as invocation context, and with argument P when P is
truthy, or `{}` when P is omitted (`undefined`) or otherwise falsy. -/
theorem C1_on_fire_single (N : String) (L : Nat) (eff : HEffect) (P : JSValue)
    (env : Nat → HandlerSpec) (henv : env L = .base eff) :
    (Obs.fire env (Obs.on ⟨[]⟩ N L) N P).2.1 =
      [⟨L, if truthy P then P else JSValue.emptyObj, Ctx.owner⟩] := by
  rcases eff with _ | ⟨n, h⟩ | ⟨n, h⟩ | _ <;>
    simp [Obs.on, lookupName, setName, Obs.fire, Obs.fireList, Obs.invokeSpec, henv]

/-- Witness for C1 at concrete inputs (truthy payload delivered as
is; omitted payload delivered as `{}`). -/
theorem C1_on_fire_single_witness :
    (Obs.fire (fun _ => .base .noEff) (Obs.on ⟨[]⟩ "e" 0) "e" (JSValue.numV 5)).2.1 =
      [⟨0, JSValue.numV 5, Ctx.owner⟩] ∧
    (Obs.fire (fun _ => .base .noEff) (Obs.on ⟨[]⟩ "e" 0) "e" JSValue.undef).2.1 =
      [⟨0, JSValue.emptyObj, Ctx.owner⟩] := by
  have h1 := C1_on_fire_single "e" 0 .noEff (JSValue.numV 5) (fun _ => .base .noEff) rfl
  have h2 := C1_on_fire_single "e" 0 .noEff JSValue.undef (fun _ => .base .noEff) rfl
  exact ⟨by simpa using h1, by simpa using h2⟩

/-- Claim C10: the `once` wrapper invokes the original handler first
and removes itself only afterwards; if the handler throws on its
first invocation the self-removal is skipped: the error propagates
out of `fire`, the invocation order was wrapper-then-handler, the
table is unchanged (wrapper still registered), and a second `fire`
of the same name invokes the handler again. -/
theorem C10_throwing_once_stays (N : String) (w L : Nat) (P1 P2 : JSValue)
    (env : Nat → HandlerSpec) (hwL : w ≠ L)
    (henv : env w = .onceWrap L (.base .throwErr) N) :
    (Obs.fire env (Obs.once ⟨[]⟩ N w) N P1).2.2 = true ∧
    (Obs.fire env (Obs.once ⟨[]⟩ N w) N P1).2.1.map Invocation.id = [w, L] ∧
    (Obs.fire env (Obs.once ⟨[]⟩ N w) N P1).1 = Obs.once ⟨[]⟩ N w ∧
    countInv (Obs.fire env (Obs.fire env (Obs.once ⟨[]⟩ N w) N P1).1 N P2).2.1 L = 1 := by
  refine ⟨?_, ?_, ?_, ?_⟩ <;>
    simp [Obs.once, Obs.on, lookupName, setName, Obs.fire, Obs.fireList,
      Obs.invokeSpec, henv, countInv, hwL]

/-- Witness for C10 at concrete inputs. -/
theorem C10_throwing_once_stays_witness :
    (Obs.fire (fun i => if i = 1 then .onceWrap 0 (.base .throwErr) "e"
        else .base .noEff) (Obs.once ⟨[]⟩ "e" 1) "e" JSValue.undef).2.2 = true ∧
    countInv (Obs.fire (fun i => if i = 1 then .onceWrap 0 (.base .throwErr) "e"
        else .base .noEff)
      (Obs.fire (fun i => if i = 1 then .onceWrap 0 (.base .throwErr) "e"
        else .base .noEff) (Obs.once ⟨[]⟩ "e" 1) "e" JSValue.undef).1
      "e" JSValue.undef).2.1 0 = 1 := by
  have h := C10_throwing_once_stays "e" 1 0 JSValue.undef JSValue.undef
    (fun i => if i = 1 then .onceWrap 0 (.base .throwErr) "e" else .base .noEff)
    (by decide) rfl
  exact ⟨h.1, h.2.2.2⟩

/-- Claim C3: `fire` iterates a snapshot taken at the start.
Part 1: a listener L1 that subscribes L2 to the same name during the
fire does not get L2 invoked in that call, but the next fire invokes
L2 once.  Part 2: a listener L1 that unsubscribes L2 (scheduled later
in the same snapshot) during the fire does not prevent L2 from being
invoked in that call, but the next fire no longer invokes L2. -/
theorem C3_snapshot_laws (N : String) (L1 L2 : Nat) (P1 P2 : JSValue)
    (env env' : Nat → HandlerSpec) (h12 : L1 ≠ L2)
    (hadd1 : env L1 = .base (.sub N L2)) (hadd2 : env L2 = .base .noEff)
    (hrem1 : env' L1 = .base (.unsub N L2)) (hrem2 : env' L2 = .base .noEff) :
    countInv (Obs.fire env (Obs.on ⟨[]⟩ N L1) N P1).2.1 L2 = 0 ∧
    countInv (Obs.fire env (Obs.fire env (Obs.on ⟨[]⟩ N L1) N P1).1 N P2).2.1 L2 = 1 ∧
    countInv (Obs.fire env' (Obs.on (Obs.on ⟨[]⟩ N L1) N L2) N P1).2.1 L2 = 1 ∧
    countInv (Obs.fire env' (Obs.fire env' (Obs.on (Obs.on ⟨[]⟩ N L1) N L2) N P1).1
      N P2).2.1 L2 = 0 := by
  have h21 : L2 ≠ L1 := Ne.symm h12
  refine ⟨?_, ?_, ?_, ?_⟩ <;>
    simp [Obs.on, lookupName, setName, Obs.fire, Obs.fireList, Obs.invokeSpec,
      Obs.off, Obs._removeEventListener, removeFirst, countInv, hadd1, hadd2,
      hrem1, hrem2, h12, h21]

/-- Witness for C3 at concrete inputs. -/
theorem C3_snapshot_laws_witness :
    countInv (Obs.fire (fun i => if i = 1 then .base (.sub "e" 2) else .base .noEff)
      (Obs.on ⟨[]⟩ "e" 1) "e" JSValue.undef).2.1 2 = 0 ∧
    countInv (Obs.fire (fun i => if i = 1 then .base (.sub "e" 2) else .base .noEff)
      (Obs.fire (fun i => if i = 1 then .base (.sub "e" 2) else .base .noEff)
        (Obs.on ⟨[]⟩ "e" 1) "e" JSValue.undef).1 "e" JSValue.undef).2.1 2 = 1 ∧
    countInv (Obs.fire (fun i => if i = 1 then .base (.unsub "e" 2) else .base .noEff)
      (Obs.on (Obs.on ⟨[]⟩ "e" 1) "e" 2) "e" JSValue.undef).2.1 2 = 1 ∧
    countInv (Obs.fire (fun i => if i = 1 then .base (.unsub "e" 2) else .base .noEff)
      (Obs.fire (fun i => if i = 1 then .base (.unsub "e" 2) else .base .noEff)
        (Obs.on (Obs.on ⟨[]⟩ "e" 1) "e" 2) "e" JSValue.undef).1 "e"
      JSValue.undef).2.1 2 = 0 :=
  C3_snapshot_laws "e" 1 2 JSValue.undef JSValue.undef
    (fun i => if i = 1 then .base (.sub "e" 2) else .base .noEff)
    (fun i => if i = 1 then .base (.unsub "e" 2) else .base .noEff)
    (by decide) rfl rfl rfl rfl

/-- The loop of `fire` over a snapshot `l1 ++ t :: l2` where every
listener in `l1` is a plain non-throwing callback and `t` throws:
exactly `l1` then `t` are invoked, in order, and the error escapes. -/
theorem fireList_prefix_throw (env : Nat → HandlerSpec) (arg : JSValue) (t : Nat)
    (ht : env t = .base .throwErr) :
    ∀ (l1 l2 : List Nat) (st : Observable),
      (∀ i ∈ l1, ∃ eff, env i = HandlerSpec.base eff ∧ eff ≠ HEffect.throwErr) →
      (Obs.fireList env (l1 ++ t :: l2) arg st).2.1.map Invocation.id = l1 ++ [t] ∧
      (Obs.fireList env (l1 ++ t :: l2) arg st).2.2 = true := by
  intro l1
  induction l1 with
  | nil =>
    intro l2 st h1
    simp [Obs.fireList, Obs.invokeSpec, ht]
  | cons i rest ih =>
    intro l2 st h1
    obtain ⟨eff, heff, hne⟩ := h1 i (List.mem_cons_self i rest)
    have hrest : ∀ j ∈ rest, ∃ eff, env j = HandlerSpec.base eff ∧ eff ≠ HEffect.throwErr :=
      fun j hj => h1 j (List.mem_cons_of_mem i hj)
    rcases eff with _ | ⟨n, h⟩ | ⟨n, h⟩ | _
    · simp [Obs.fireList, Obs.invokeSpec, heff, ih l2 st hrest]
    · simp [Obs.fireList, Obs.invokeSpec, heff, ih l2 (Obs.on st n h) hrest]
    · simp [Obs.fireList, Obs.invokeSpec, heff, ih l2 (Obs.off st n h) hrest]
    · exact absurd rfl hne

/-- Claim C8: a listener that throws during `fire` is not caught: the
error propagates out of `fire` (flag `true`) and no listener after it
in that call's snapshot is invoked — the invocation log is exactly
the non-throwing prefix followed by the thrower. -/
theorem C8_throw_aborts (N : String) (P : JSValue) (env : Nat → HandlerSpec)
    (st : Observable) (l1 l2 : List Nat) (t : Nat)
    (h1 : ∀ i ∈ l1, ∃ eff, env i = HandlerSpec.base eff ∧ eff ≠ HEffect.throwErr)
    (ht : env t = .base .throwErr)
    (hlook : lookupName st.__eventListeners N = some (l1 ++ t :: l2)) :
    (Obs.fire env st N P).2.1.map Invocation.id = l1 ++ [t] ∧
    (Obs.fire env st N P).2.2 = true := by
  have h := fireList_prefix_throw env (if truthy P then P else JSValue.emptyObj) t ht
    l1 l2 st h1
  simpa [Obs.fire, hlook] using h

/-- Witness for C8 at concrete inputs: listeners `[0, 1, 2]` where
`1` throws — `0` and `1` are invoked, `2` is not, the error escapes. -/
theorem C8_throw_aborts_witness :
    (Obs.fire (fun i => if i = 1 then .base .throwErr else .base .noEff)
      ⟨[("e", [0, 1, 2])]⟩ "e" JSValue.undef).2.1.map Invocation.id = [0] ++ [1] ∧
    (Obs.fire (fun i => if i = 1 then .base .throwErr else .base .noEff)
      ⟨[("e", [0, 1, 2])]⟩ "e" JSValue.undef).2.2 = true := by
  refine C8_throw_aborts "e" JSValue.undef
    (fun i => if i = 1 then .base .throwErr else .base .noEff)
    ⟨[("e", [0, 1, 2])]⟩ [0] [2] 1 ?_ rfl (by decide)
  intro i hi
  have : i = 0 := by simpa using hi
  subst this
  exact ⟨.noEff, rfl, by decide⟩

theorem off_noop_of_none (st : Observable) (N : String) (L : Nat)
    (hl : lookupName st.__eventListeners N = Option.none) :
    Obs.off st N L = st := by
  simp [Obs.off, Obs._removeEventListener, hl]

theorem off_noop_of_not_mem (st : Observable) (N : String) (L : Nat) (l : List Nat)
    (hl : lookupName st.__eventListeners N = some l) (hm : L ∉ l) :
    Obs.off st N L = st := by
  simp [Obs.off, Obs._removeEventListener, hl, hm]

theorem off_of_mem (st : Observable) (N : String) (L : Nat) (l : List Nat)
    (hl : lookupName st.__eventListeners N = some l) (hm : L ∈ l) :
    Obs.off st N L = ⟨setName st.__eventListeners N (removeFirst l L)⟩ := by
  simp [Obs.off, Obs._removeEventListener, hl, hm]

theorem removeFirst_count_le_one (l : List Nat) (h : Nat) (hc : l.count h ≤ 1) :
    h ∉ removeFirst l h := by
  induction l with
  | nil => simp [removeFirst]
  | cons x xs ih =>
    by_cases hx : x = h
    · subst hx
      have h0 : xs.count x = 0 := by
        have := List.count_cons_self x xs
        omega
      have hnm : x ∉ xs := by
        rw [← List.count_eq_zero]
        exact h0
      simpa [removeFirst] using hnm
    · have hxs : xs.count h ≤ 1 := by
        have hcc : (x :: xs).count h = xs.count h := by
          simp [List.count_cons, hx, Ne.symm hx]
        omega
      simp [removeFirst, hx, Ne.symm hx, ih hxs]

/-- Claim C5 counterexample: disposal is NOT idempotent when the same
listener is registered twice.  With two copies of listener 0 under
`"e"`, one disposer invocation leaves a copy — the listener is still
invoked by a subsequent `fire` — and a second disposer invocation
removes the second copy, so twice ≠ once.  A disposer invoked after
its target was removed by an `off` may hence remove another copy
rather than being a no-op. -/
theorem C5_counterexample :
    Obs.off (Obs.on (Obs.on ⟨[]⟩ "e" 0) "e" 0) "e" 0 = ⟨[("e", [0])]⟩ ∧
    countInv (Obs.fire (fun _ => .base .noEff)
      (Obs.off (Obs.on (Obs.on ⟨[]⟩ "e" 0) "e" 0) "e" 0) "e" JSValue.undef).2.1 0 = 1 ∧
    Obs.off (Obs.off (Obs.on (Obs.on ⟨[]⟩ "e" 0) "e" 0) "e" 0) "e" 0 ≠
      Obs.off (Obs.on (Obs.on ⟨[]⟩ "e" 0) "e" 0) "e" 0 := by decide

/-- Claim C5 (amended): when listener L is stored at most once under
name N, invoking the disposer of `on(N, L)` twice leaves the registry
in the same state as invoking it once, after which L is no longer
stored under N; and invoking a disposer whose listener is no longer
stored (removed by other means) is a silent no-op. -/
theorem C5_disposer_idempotent (st : Observable) (N : String) (L : Nat)
    (hcount : ∀ l, lookupName st.__eventListeners N = some l → l.count L ≤ 1) :
    Obs.off (Obs.off st N L) N L = Obs.off st N L ∧
    (∀ l', lookupName (Obs.off st N L).__eventListeners N = some l' → L ∉ l') ∧
    (∀ l, lookupName st.__eventListeners N = some l → L ∉ l → Obs.off st N L = st) := by
  cases hl : lookupName st.__eventListeners N with
  | none =>
    have hoff : Obs.off st N L = st := off_noop_of_none st N L hl
    refine ⟨by simp [hoff], fun l' h' => ?_, fun l h _ => absurd h (by simp)⟩
    rw [hoff, hl] at h'
    exact absurd h' (by simp)
  | some l =>
    by_cases hm : L ∈ l
    · have hoff : Obs.off st N L = ⟨setName st.__eventListeners N (removeFirst l L)⟩ :=
        off_of_mem st N L l hl hm
      have hnm : L ∉ removeFirst l L := removeFirst_count_le_one l L (hcount l hl)
      have hlook2 : lookupName (Obs.off st N L).__eventListeners N =
          some (removeFirst l L) := by
        rw [hoff]
        exact lookupName_set_self _ _ _
      refine ⟨off_noop_of_not_mem _ N L _ hlook2 hnm, fun l' h' => ?_, fun l0 h0 hn0 => ?_⟩
      · rw [hlook2] at h'
        injection h' with he
        exact he ▸ hnm
      · injection h0 with he
        exact absurd (he ▸ hm) hn0
    · have hoff : Obs.off st N L = st := off_noop_of_not_mem st N L l hl hm
      refine ⟨by simp [hoff], fun l' h' => ?_, fun _ _ _ => hoff⟩
      rw [hoff, hl] at h'
      injection h' with he
      exact he ▸ hm

/-- Witness for C5 at concrete inputs: a single registration, and a
disposer whose listener is not stored. -/
theorem C5_disposer_idempotent_witness :
    Obs.off (Obs.off ⟨[("e", [0])]⟩ "e" 0) "e" 0 = Obs.off ⟨[("e", [0])]⟩ "e" 0 ∧
    Obs.off ⟨[("e", [1])]⟩ "e" 0 = ⟨[("e", [1])]⟩ := by
  have h1 := C5_disposer_idempotent ⟨[("e", [0])]⟩ "e" 0
    (fun l hl => by injection hl with he; subst he; decide)
  have h2 := C5_disposer_idempotent ⟨[("e", [1])]⟩ "e" 0
    (fun l hl => by injection hl with he; subst he; decide)
  exact ⟨h1.1, h2.2.2 [1] rfl (by decide)⟩

theorem fire_of_none (env : Nat → HandlerSpec) (st : Observable) (N : String)
    (P : JSValue) (h : lookupName st.__eventListeners N = Option.none) :
    Obs.fire env st N P = (st, [], false) := by
  simp [Obs.fire, h]

theorem fire_of_empty (env : Nat → HandlerSpec) (st : Observable) (N : String)
    (P : JSValue) (h : lookupName st.__eventListeners N = some []) :
    Obs.fire env st N P = (st, [], false) := by
  simp [Obs.fire, h, Obs.fireList]

theorem lookup_single_self (N : String) (v : List Nat) :
    lookupName [(N, v)] N = some v := by
  simp [lookupName]

theorem lookup_single_ne (N m : String) (v : List Nat) (h : m ≠ N) :
    lookupName [(N, v)] m = Option.none := by
  simp [lookupName, Ne.symm h]

theorem countInv_append (a b : List Invocation) (i : Nat) :
    countInv (a ++ b) i = countInv a i + countInv b i := by
  simp [countInv, List.filter_append]

theorem countInv_cons_ne (j i : Nat) (h : j ≠ i) (a : JSValue) (c : Ctx)
    (rest : List Invocation) :
    countInv (⟨j, a, c⟩ :: rest) i = countInv rest i := by
  simp [countInv, h]

theorem countInv_cons_self (i : Nat) (a : JSValue) (c : Ctx)
    (rest : List Invocation) :
    countInv (⟨i, a, c⟩ :: rest) i = countInv rest i + 1 := by
  simp [countInv]

theorem off_single (N : String) (w : Nat) :
    Obs.off ⟨[(N, [w])]⟩ N w = ⟨[(N, [])]⟩ := by
  simp [Obs.off, Obs._removeEventListener, lookupName, removeFirst, setName]

theorem off_double_S0 (N : String) (w : Nat) (n : String) (h : Nat) :
    Obs.off (Obs.off ⟨[(N, [w])]⟩ n h) N w = ⟨[(N, [])]⟩ := by
  by_cases hn : n = N
  · subst hn
    by_cases hh : h = w
    · subst hh
      rw [off_single]
      exact off_noop_of_not_mem _ _ _ [] (lookup_single_self _ _) (by simp)
    · rw [off_noop_of_not_mem _ _ _ [w] (lookup_single_self _ _) (by simp [hh])]
      exact off_single _ _
  · rw [off_noop_of_none _ _ _ (lookup_single_ne N n [w] hn)]
    exact off_single _ _

/-- Firing the event of a pending `once` wrapper: the wrapper then the
inner handler are invoked, the inner effect (none, or any `off`) and
the wrapper's self-removal leave exactly the empty sequence. -/
theorem fire_S0_self (N : String) (w L : Nat) (eff : HEffect)
    (env : Nat → HandlerSpec)
    (henv : env w = HandlerSpec.onceWrap L (.base eff) N)
    (heff : eff = HEffect.noEff ∨ ∃ n h, eff = HEffect.unsub n h) (P : JSValue) :
    Obs.fire env ⟨[(N, [w])]⟩ N P =
      (⟨[(N, [])]⟩,
        [⟨w, if truthy P then P else JSValue.emptyObj, Ctx.owner⟩,
         ⟨L, if truthy P then P else JSValue.emptyObj, Ctx.undefCtx⟩], false) := by
  rcases heff with rfl | ⟨n, h, rfl⟩
  · simp [Obs.fire, lookupName, Obs.fireList, Obs.invokeSpec, henv, off_single]
  · simp [Obs.fire, lookupName, Obs.fireList, Obs.invokeSpec, henv, off_double_S0]

theorem fire_S1_any (N : String) (env : Nat → HandlerSpec) (m : String) (P : JSValue) :
    Obs.fire env ⟨[(N, [])]⟩ m P = (⟨[(N, [])]⟩, [], false) := by
  by_cases hm : m = N
  · subst hm
    exact fire_of_empty env _ m P (lookup_single_self m [])
  · exact fire_of_none env _ m P (lookup_single_ne N m [] hm)

/-- Invariant behind the `once` guarantee: from the state holding only
the pending wrapper the handler fires at most once over any sequence
of `fire` calls, and once it has fired the registry stays at the empty
sequence forever. -/
theorem fireSeq_once_core (N : String) (w L : Nat) (eff : HEffect)
    (env : Nat → HandlerSpec) (hwL : w ≠ L)
    (henv : env w = HandlerSpec.onceWrap L (.base eff) N)
    (heff : eff = HEffect.noEff ∨ ∃ n h, eff = HEffect.unsub n h) :
    ∀ calls : List (String × JSValue),
      ((Obs.fireSeq env ⟨[(N, [])]⟩ calls).1 = ⟨[(N, [])]⟩ ∧
        countInv (Obs.fireSeq env ⟨[(N, [])]⟩ calls).2 L = 0) ∧
      (countInv (Obs.fireSeq env ⟨[(N, [w])]⟩ calls).2 L ≤ 1 ∧
        (countInv (Obs.fireSeq env ⟨[(N, [w])]⟩ calls).2 L = 1 →
          (Obs.fireSeq env ⟨[(N, [w])]⟩ calls).1 = ⟨[(N, [])]⟩)) := by
  intro calls
  induction calls with
  | nil =>
    refine ⟨⟨rfl, rfl⟩, by simp [Obs.fireSeq, countInv], fun h => ?_⟩
    exact absurd h (by simp [Obs.fireSeq, countInv])
  | cons c rest ih =>
    obtain ⟨m, P⟩ := c
    refine ⟨⟨?_, ?_⟩, ?_, ?_⟩
    · simp [Obs.fireSeq, fire_S1_any, ih.1.1]
    · simp [Obs.fireSeq, fire_S1_any, countInv_append, ih.1.2]
    · by_cases hm : m = N
      · subst hm
        simp [Obs.fireSeq, fire_S0_self m w L eff env henv heff P, countInv_append,
          countInv_cons_ne w L hwL, countInv_cons_self, ih.1.2]
      · simp [Obs.fireSeq, fire_of_none env _ m P (lookup_single_ne N m [w] hm),
          countInv_append, ih.2.1]
    · by_cases hm : m = N
      · subst hm
        intro _
        simp [Obs.fireSeq, fire_S0_self m w L eff env henv heff P, ih.1.1]
      · intro h1
        rw [Obs.fireSeq] at h1 ⊢
        simp only [fire_of_none env _ m P (lookup_single_ne N m [w] hm)] at h1 ⊢
        simp only [List.nil_append] at h1 ⊢
        exact ih.2.2 h1

/-- Claim C2 counterexample: the wrapper registered by `once` only
removes itself AFTER the handler returns; a handler that throws on
its first invocation is invoked again by the next `fire` — it is not
"invoked at most once ever, regardless of what it does". -/
theorem C2_counterexample :
    countInv (Obs.fireSeq
      (fun i => if i = 1 then HandlerSpec.onceWrap 0 (.base .throwErr) "e"
        else .base .throwErr)
      (Obs.once ⟨[]⟩ "e" 1) [("e", JSValue.undef), ("e", JSValue.undef)]).2 0 = 2 := by
  decide

/-- Claim C2 (amended): for a `once(N, L)` registration where L
returns normally (never throws) and does not register listeners — it
may do nothing or call `off` arbitrarily — L is invoked at most once
over ANY sequence of subsequent `fire` calls; after exactly one
`fire(N, P)` it has been invoked exactly once; and once L has fired,
the returned disposer is a no-op. -/
theorem C2_once_at_most_once (N : String) (w L : Nat) (eff : HEffect)
    (env : Nat → HandlerSpec) (hwL : w ≠ L)
    (henv : env w = HandlerSpec.onceWrap L (.base eff) N)
    (heff : eff = HEffect.noEff ∨ ∃ n h, eff = HEffect.unsub n h)
    (calls : List (String × JSValue)) (P : JSValue) :
    countInv (Obs.fireSeq env (Obs.once ⟨[]⟩ N w) calls).2 L ≤ 1 ∧
    (countInv (Obs.fireSeq env (Obs.once ⟨[]⟩ N w) calls).2 L = 1 →
      Obs.off (Obs.fireSeq env (Obs.once ⟨[]⟩ N w) calls).1 N w =
        (Obs.fireSeq env (Obs.once ⟨[]⟩ N w) calls).1) ∧
    countInv (Obs.fireSeq env (Obs.once ⟨[]⟩ N w) [(N, P)]).2 L = 1 := by
  have honce : Obs.once ⟨[]⟩ N w = ⟨[(N, [w])]⟩ := by
    simp [Obs.once, Obs.on, lookupName, setName]
  have hcore := fireSeq_once_core N w L eff env hwL henv heff
  rw [honce]
  refine ⟨(hcore calls).2.1, fun h1 => ?_, ?_⟩
  · rw [(hcore calls).2.2 h1]
    exact off_noop_of_not_mem _ _ _ [] (lookup_single_self _ _) (by simp)
  · simp [Obs.fireSeq, fire_S0_self N w L eff env henv heff P, countInv, hwL]

/-- Witness for C2 at concrete inputs: one `once`, two fires, the
handler runs exactly once and the disposer afterwards is a no-op. -/
theorem C2_once_at_most_once_witness :
    countInv (Obs.fireSeq
      (fun i => if i = 1 then HandlerSpec.onceWrap 0 (.base .noEff) "e"
        else .base .noEff)
      (Obs.once ⟨[]⟩ "e" 1) [("e", JSValue.undef), ("e", JSValue.undef)]).2 0 ≤ 1 ∧
    (countInv (Obs.fireSeq
      (fun i => if i = 1 then HandlerSpec.onceWrap 0 (.base .noEff) "e"
        else .base .noEff)
      (Obs.once ⟨[]⟩ "e" 1) [("e", JSValue.undef), ("e", JSValue.undef)]).2 0 = 1 →
      Obs.off (Obs.fireSeq
        (fun i => if i = 1 then HandlerSpec.onceWrap 0 (.base .noEff) "e"
          else .base .noEff)
        (Obs.once ⟨[]⟩ "e" 1) [("e", JSValue.undef), ("e", JSValue.undef)]).1 "e" 1 =
        (Obs.fireSeq
          (fun i => if i = 1 then HandlerSpec.onceWrap 0 (.base .noEff) "e"
            else .base .noEff)
          (Obs.once ⟨[]⟩ "e" 1) [("e", JSValue.undef), ("e", JSValue.undef)]).1) ∧
    countInv (Obs.fireSeq
      (fun i => if i = 1 then HandlerSpec.onceWrap 0 (.base .noEff) "e"
        else .base .noEff)
      (Obs.once ⟨[]⟩ "e" 1) [("e", JSValue.undef)]).2 0 = 1 :=
  C2_once_at_most_once "e" 1 0 .noEff
    (fun i => if i = 1 then HandlerSpec.onceWrap 0 (.base .noEff) "e"
      else .base .noEff)
    (by decide) rfl (Or.inl rfl) [("e", JSValue.undef), ("e", JSValue.undef)]
    JSValue.undef

theorem map_eq_map_of_eq {α β : Type} (l : List α) (f g : α → β)
    (h : ∀ a ∈ l, f a = g a) : l.map f = l.map g := by
  induction l with
  | nil => rfl
  | cons x xs ih =>
    simp [h x (List.mem_cons_self x xs),
      ih (fun a ha => h a (List.mem_cons_of_mem x ha))]

theorem map_id_of_eq {α : Type} (l : List α) (f : α → α) (h : ∀ a ∈ l, f a = a) :
    l.map f = l := by
  induction l with
  | nil => rfl
  | cons x xs ih =>
    simp [h x (List.mem_cons_self x xs),
      ih (fun a ha => h a (List.mem_cons_of_mem x ha))]

theorem lookupName_eq_none_iff (t : List (String × List Nat)) (n : String) :
    lookupName t n = Option.none ↔ ∀ kv ∈ t, kv.1 ≠ n := by
  induction t with
  | nil => simp [lookupName]
  | cons kv rest ih =>
    obtain ⟨k, v⟩ := kv
    by_cases hk : k = n
    · simp [lookupName, hk]
    · simp [lookupName, hk, ih]

/-- On a record with distinct keys, resetting a present key to `[]`
is a pointwise map over the entries. -/
theorem setName_zero_eq_map (t : List (String × List Nat)) (k : String) (l : List Nat)
    (hnd : (t.map Prod.fst).Nodup) (hk : lookupName t k = some l) :
    setName t k [] = t.map (fun kv => if kv.1 = k then (kv.1, []) else kv) := by
  induction t with
  | nil => simp [lookupName] at hk
  | cons kv rest ih =>
    obtain ⟨k0, v0⟩ := kv
    rw [List.map_cons, List.nodup_cons] at hnd
    by_cases h0 : k0 = k
    · subst h0
      have hrest : ∀ kv ∈ rest,
          (if kv.1 = k0 then (kv.1, ([] : List Nat)) else kv) = kv := by
        intro kv hm
        have hne : kv.1 ≠ k0 := by
          intro hc
          have hmm : kv.1 ∈ rest.map Prod.fst := List.mem_map.mpr ⟨kv, hm, rfl⟩
          rw [hc] at hmm
          exact hnd.1 hmm
        simp [hne]
      simp [setName, map_id_of_eq rest _ hrest]
    · have hk' : lookupName rest k = some l := by
        simpa [lookupName, h0] using hk
      simp [setName, h0, ih hnd.2 hk']

/-- The `off()` loop (fold of `_removeEventListener(name)` over a key
list) on a record with distinct keys: every entry whose key is in the
list is reset to `[]`, the rest are untouched. -/
theorem offAll_fold (ks : List String) :
    ∀ t : List (String × List Nat), (t.map Prod.fst).Nodup →
      (ks.foldl (fun s n => Obs._removeEventListener s n Option.none)
        ⟨t⟩).__eventListeners =
        t.map (fun kv => if kv.1 ∈ ks then (kv.1, []) else kv) := by
  induction ks with
  | nil =>
    intro t hnd
    simp only [List.foldl_nil]
    exact (map_id_of_eq t _ (fun kv hm => by simp)).symm
  | cons k ks ih =>
    intro t hnd
    rw [List.foldl_cons]
    cases hk : lookupName t k with
    | none =>
      have hrem : Obs._removeEventListener ⟨t⟩ k Option.none = ⟨t⟩ := by
        simp [Obs._removeEventListener, hk]
      rw [hrem, ih t hnd]
      apply map_eq_map_of_eq
      intro kv hm
      have hne : kv.1 ≠ k := (lookupName_eq_none_iff t k).mp hk kv hm
      simp [List.mem_cons, hne]
    | some l =>
      have hrem : Obs._removeEventListener ⟨t⟩ k Option.none = ⟨setName t k []⟩ := by
        simp [Obs._removeEventListener, hk]
      rw [hrem, setName_zero_eq_map t k l hnd hk]
      have hkeys : (t.map (fun kv => if kv.1 = k then (kv.1, ([] : List Nat)) else kv)).map
          Prod.fst = t.map Prod.fst := by
        rw [List.map_map]
        apply map_eq_map_of_eq
        intro kv hm
        by_cases h : kv.1 = k <;> simp [Function.comp, h]
      rw [ih _ (hkeys ▸ hnd), List.map_map]
      apply map_eq_map_of_eq
      intro kv hm
      by_cases h : kv.1 = k
      · simp [Function.comp, h, List.mem_cons]
      · by_cases h2 : kv.1 ∈ ks <;> simp [Function.comp, h, h2, List.mem_cons]

/-- `off()` with no arguments maps every entry to the empty sequence. -/
theorem offAll_eq_map (st : Observable)
    (hnd : (st.__eventListeners.map Prod.fst).Nodup) :
    (Obs.offAll st).__eventListeners =
      st.__eventListeners.map (fun kv => (kv.1, ([] : List Nat))) := by
  unfold Obs.offAll
  rw [offAll_fold (st.__eventListeners.map Prod.fst) st.__eventListeners hnd]
  apply map_eq_map_of_eq
  intro kv hm
  simp [List.mem_map_of_mem Prod.fst hm]

theorem lookup_zero_map (t : List (String × List Nat)) (n : String) :
    lookupName (t.map (fun kv => (kv.1, ([] : List Nat)))) n =
      (lookupName t n).map (fun _ => ([] : List Nat)) := by
  induction t with
  | nil => simp [lookupName]
  | cons kv rest ih =>
    obtain ⟨k, v⟩ := kv
    by_cases hk : k = n <;> simp [lookupName, hk, ih]

/-- Claim C4: `off()` with no arguments keeps every known event name
in the table (same key list) but maps each to the empty sequence;
afterwards `fire(anyName, anyPayload)` invokes nothing and leaves the
state unchanged. -/
theorem C4_off_all (st : Observable) (env : Nat → HandlerSpec)
    (hnd : (st.__eventListeners.map Prod.fst).Nodup) :
    ((Obs.offAll st).__eventListeners.map Prod.fst =
      st.__eventListeners.map Prod.fst) ∧
    (∀ n, n ∈ st.__eventListeners.map Prod.fst →
      lookupName (Obs.offAll st).__eventListeners n = some []) ∧
    (∀ n P, Obs.fire env (Obs.offAll st) n P = (Obs.offAll st, [], false)) := by
  have hmap := offAll_eq_map st hnd
  refine ⟨?_, fun n hn => ?_, fun n P => ?_⟩
  · rw [hmap, List.map_map]
    apply map_eq_map_of_eq
    intro kv hm
    rfl
  · rw [hmap, lookup_zero_map]
    cases hl : lookupName st.__eventListeners n with
    | none =>
      obtain ⟨kv, hkv, hfst⟩ := List.mem_map.mp hn
      exact absurd hfst ((lookupName_eq_none_iff _ n).mp hl kv hkv)
    | some l => simp
  · cases hl : lookupName st.__eventListeners n with
    | none =>
      apply fire_of_none
      rw [hmap, lookup_zero_map, hl]
      rfl
    | some l =>
      apply fire_of_empty
      rw [hmap, lookup_zero_map, hl]
      rfl

/-- Witness for C4 at concrete inputs. -/
theorem C4_off_all_witness :
    ((Obs.offAll ⟨[("a", [0]), ("b", [1, 2])]⟩).__eventListeners.map Prod.fst =
      ([("a", [0]), ("b", [1, 2])] : List (String × List Nat)).map Prod.fst) ∧
    lookupName (Obs.offAll ⟨[("a", [0]), ("b", [1, 2])]⟩).__eventListeners "b" =
      some [] ∧
    Obs.fire (fun _ => .base .noEff) (Obs.offAll ⟨[("a", [0]), ("b", [1, 2])]⟩) "b"
      JSValue.undef = (Obs.offAll ⟨[("a", [0]), ("b", [1, 2])]⟩, [], false) := by
  have h := C4_off_all ⟨[("a", [0]), ("b", [1, 2])]⟩ (fun _ => .base .noEff) (by decide)
  exact ⟨h.1, h.2.1 "b" (by decide), h.2.2 "b" JSValue.undef⟩
